import Mathlib

/-!
Shallow embedding of `core/core.go` from turbot/edgr.

The repository code under `src/core/core.go` is embedded directly.  The
package delegates to external collaborators that are not part of this file
of the repository: the page fetcher with retry (`getPage`), the link
extractors (`findListURLs`, `findIdxURL`), the filing builder
(`buildFiling`), the HTTP transport, the Go standard library JSON / XML
decoders and `time.Parse`.  Those collaborators are modelled either as
oracle fields of an `Env` record (so every theorem quantifies over their
behaviour) or, where the spec pins down their behaviour exactly, as
concrete functions marked `Modelled from the spec:`.
-/

namespace Edgr

/-- A record of an outbound effect performed by an operation: a raw HTTP
GET, a page fetch with a retry budget, or a call into the filing builder
(which itself fetches the index page). -/
inductive NetCall where
  | httpGet (url : String)
  | pageGet (url : String) (retries : Nat)
  | buildCall (cik url : String)
  deriving Repr, DecidableEq

/-- `model.Filing` (package `core/model`, not under src).  Modelled from the
spec: a filing carries the filer identifier, form type, submission
timestamp, ticker symbol and the associated-symbols list.  The timestamp
`edgarTime` is embedded as an integer instant; the Go `time.Time.Before` is
the strict order `<` on instants. -/
structure Filing where
  cik : String
  formType : String
  edgarTime : Int
  symbol : String
  allSymbols : List String
  deriving Repr, DecidableEq

/-- `model.Document` (package `core/model`, not under src).  Modelled from
the spec: a document attached to a filing; not elaborated beyond identity. -/
structure Document where
  name : String
  deriving Repr, DecidableEq

/-- `SECFiling` from core.go: one filing together with its documents. -/
structure SECFiling where
  filing : Filing
  docs : List Document
  deriving Repr, DecidableEq

/-- `model.Filer` (package `core/model`, not under src).  Modelled from the
spec: archive identifier, ticker symbol, industry classification code and
description, legal name — exactly the fields core.go populates. -/
structure Filer where
  cik : String
  symbol : String
  sic : String
  sicDescription : String
  name : String
  deriving Repr, DecidableEq

/-- `secFilerInfo` from core.go: the decoded `company-info` XML element. -/
structure secFilerInfo where
  cik : String
  sic : String
  sicDesc : String
  name : String
  deriving Repr, DecidableEq

/-- `rssFeed` from core.go: the XML feed envelope. -/
structure rssFeed where
  info : secFilerInfo
  deriving Repr, DecidableEq

/-- A JSON value, the target of the Go standard library decoder.  `Company`
has only string and boolean fields, so numbers never arise in this
development; they are carried as integers for completeness. -/
inductive Json where
  | null
  | bool (b : Bool)
  | num (n : Int)
  | str (s : String)
  | arr (xs : List Json)
  | obj (kvs : List (String × Json))

/-- `Company` from core.go: the decoded record of one listed security. -/
structure Company where
  cik : String
  currency : String
  date : String
  exchange : String
  exchangeName : String
  exchangeSegment : String
  exchangeSegmentName : String
  exchangeSuffix : String
  figi : String
  iexId : String
  isEnabled : Bool
  lei : String
  name : String
  region : String
  symbol : String
  type : String
  deriving Repr, DecidableEq

/-- The zero value of `Company`, as Go initialises a struct before
`json.Unmarshal` fills it. -/
def defaultCompany : Company :=
  ⟨"", "", "", "", "", "", "", "", "", "", false, "", "", "", "", ""⟩

/-- The external collaborators of core.go, as oracles.  `getPage` is the
fetch-with-retry helper, `findListURLs` and `findIdxURL` are the link
extractors (repository code not under src, kept abstract: the spec
describes them only as pattern extractors over raw page text),
`buildFiling` is the filing builder, `httpGet` the raw transport returning
a response body, `encodeQuery` the standard library query-string encoder,
`parseJson` the standard library JSON reader, and `fetchFeed` the
transport plus charset-aware XML decode of the filer feed. -/
structure Env where
  getPage : String → Nat → Except String String
  findListURLs : String → List String
  findIdxURL : String → String
  buildFiling : String → String → Except String SECFiling
  httpGet : String → List (String × String) → Except String String
  encodeQuery : List (String × String) → String
  parseJson : String → Except String Json
  fetchFeed : String → List (String × String) → Except String rssFeed

/-! ### Date parsing (`time.Parse("2006-01-02", stoptime)`) -/

/-- Days in a month, with the Gregorian leap-year rule, as validated by the
Go time package. -/
def daysInMonth (y m : Nat) : Nat :=
  if m = 2 then
    if y % 4 = 0 ∧ (y % 100 ≠ 0 ∨ y % 400 = 0) then 29 else 28
  else if m = 4 ∨ m = 6 ∨ m = 9 ∨ m = 11 then 30
  else 31

/-- Numeric value of a decimal digit character. -/
def digitVal (c : Char) : Nat := c.toNat - '0'.toNat

/-- Modelled from the spec: Go `time.Parse` with layout `"2006-01-02"` —
a 4-digit year, 2-digit month and 2-digit day, hyphen-separated, with no
trailing text, and the month/day validated as a real calendar date.
Returns the date on success. -/
def parseGoDate (s : String) : Option (Nat × Nat × Nat) :=
  match s.toList with
  | [y1, y2, y3, y4, h1, m1, m2, h2, d1, d2] =>
    if (y1.isDigit ∧ y2.isDigit ∧ y3.isDigit ∧ y4.isDigit ∧
        m1.isDigit ∧ m2.isDigit ∧ d1.isDigit ∧ d2.isDigit ∧
        h1 = '-' ∧ h2 = '-') then
      let y := ((digitVal y1 * 10 + digitVal y2) * 10 + digitVal y3) * 10 + digitVal y4
      let m := digitVal m1 * 10 + digitVal m2
      let d := digitVal d1 * 10 + digitVal d2
      if 1 ≤ m ∧ m ≤ 12 ∧ 1 ≤ d ∧ d ≤ daysInMonth y m then
        some (y, m, d)
      else none
    else none
  | _ => none

/-- The instant (midnight UTC) denoted by a parsed date, on the integer
time axis used for `Filing.edgarTime`.  Injective and monotone on valid
dates. -/
def dateInstant (d : Nat × Nat × Nat) : Int :=
  ((d.1 * 10000 + d.2.1 * 100 + d.2.2 : Nat) : Int)

/-! ### GetFilings -/

/-- The fixed archive path of the directory of one filer, from core.go. -/
def topURL (cik : String) : String :=
  "https://www.sec.gov/Archives/edgar/data/" ++ cik

/-- Result of `GetFilings`: the accumulated filings, the Go error value
(`none` = nil), and the trace of outbound calls performed. -/
structure FilingsResult where
  filings : List SECFiling
  err : Option String
  calls : List NetCall
  deriving Repr, DecidableEq

/-- The stamp performed just before appending in core.go:
`filing.Filing.AllSymbols = []string{filing.Filing.Symbol}`. -/
def stampFiling (sf : SECFiling) : SECFiling :=
  { sf with filing := { sf.filing with allSymbols := [sf.filing.symbol] } }

/-- The `for _, u := range urls` loop of `GetFilings` in core.go: fetch the
sub-directory page (continue on error), extract the index URL (continue if
empty), build the filing (continue on error), apply the form-type filter
(skip on mismatch), apply the cutoff (return the accumulated filings on a
timestamp strictly before the cutoff), otherwise stamp, append and
continue. -/
def getFilingsLoop (env : Env) (cik formtype : String) (stop : Option Int) :
    List String → List SECFiling → List NetCall → FilingsResult
  | [], acc, calls => ⟨acc, none, calls⟩
  | u :: rest, acc, calls =>
    match env.getPage u 2 with
    | .error _ =>
      getFilingsLoop env cik formtype stop rest acc (calls ++ [.pageGet u 2])
    | .ok docsPage =>
      let idxURL := env.findIdxURL docsPage
      if idxURL = "" then
        getFilingsLoop env cik formtype stop rest acc (calls ++ [.pageGet u 2])
      else
        match env.buildFiling cik idxURL with
        | .error _ =>
          getFilingsLoop env cik formtype stop rest acc
            (calls ++ [.pageGet u 2, .buildCall cik idxURL])
        | .ok filing =>
          if formtype ≠ "" ∧ filing.filing.formType ≠ formtype then
            getFilingsLoop env cik formtype stop rest acc
              (calls ++ [.pageGet u 2, .buildCall cik idxURL])
          else
            match stop with
            | some st =>
              if filing.filing.edgarTime < st then
                ⟨acc, none, calls ++ [.pageGet u 2, .buildCall cik idxURL]⟩
              else
                getFilingsLoop env cik formtype stop rest
                  (acc ++ [stampFiling filing])
                  (calls ++ [.pageGet u 2, .buildCall cik idxURL])
            | none =>
              getFilingsLoop env cik formtype stop rest
                (acc ++ [stampFiling filing])
                (calls ++ [.pageGet u 2, .buildCall cik idxURL])

/-- The cutoff-establishing prologue of `GetFilings` (core.go lines
180–187): an empty `stoptime` means no cutoff; a non-empty one is parsed,
and a parse failure is an error. -/
def parseStop (stoptime : String) : Except String (Option Int) :=
  if stoptime = "" then .ok none
  else match parseGoDate stoptime with
    | none => .error ("cannot parse " ++ stoptime ++ " as 2006-01-02")
    | some d => .ok (some (dateInstant d))

/-- `GetFilings` from core.go: parse the stop date if non-empty (abort on
parse failure), fetch the top-level directory page (abort on failure),
extract the sub-directory URLs and run the traversal loop. -/
def GetFilings (env : Env) (cik formtype stoptime : String) : FilingsResult :=
  match parseStop stoptime with
  | .error e => ⟨[], some e, []⟩
  | .ok stop =>
    match env.getPage (topURL cik) 2 with
    | .error e => ⟨[], some e, [.pageGet (topURL cik) 2]⟩
    | .ok dirPage =>
      getFilingsLoop env cik formtype stop (env.findListURLs dirPage) []
        [.pageGet (topURL cik) 2]

/-! ### Company directory client -/

/-- The fixed symbols endpoint from core.go. -/
def iexSymbolsURL : String := "https://api.iex.cloud/v1/data/core/REF_DATA/symbols"

/-- The missing-token configuration error message from core.go. -/
def tokenErrMsg : String :=
  "To access the endpoint at https://api.iex.cloud, you must include the " ++
  "\x27token\x27 in the query parameters."

/-- Go map indexing `queryParameters["token"]`: the stored value, or the
zero value `""` when the key is absent. -/
def lookupParam (qp : List (String × String)) (k : String) : String :=
  match qp.lookup k with
  | some v => v
  | none => ""

/-- One JSON object entry assigned into a `Company`, following the Go
decoder: a known key of the wrong type is an error, `null` leaves the
field unchanged, an unknown key is ignored. -/
def setCompanyField (c : Company) (k : String) (v : Json) : Except String Company :=
  if k = "cik" then
    match v with
    | .str s => .ok { c with cik := s }
    | .null => .ok c
    | _ => .error "cannot unmarshal into field cik"
  else if k = "currency" then
    match v with
    | .str s => .ok { c with currency := s }
    | .null => .ok c
    | _ => .error "cannot unmarshal into field currency"
  else if k = "date" then
    match v with
    | .str s => .ok { c with date := s }
    | .null => .ok c
    | _ => .error "cannot unmarshal into field date"
  else if k = "exchange" then
    match v with
    | .str s => .ok { c with exchange := s }
    | .null => .ok c
    | _ => .error "cannot unmarshal into field exchange"
  else if k = "exchangeName" then
    match v with
    | .str s => .ok { c with exchangeName := s }
    | .null => .ok c
    | _ => .error "cannot unmarshal into field exchangeName"
  else if k = "exchangeSegment" then
    match v with
    | .str s => .ok { c with exchangeSegment := s }
    | .null => .ok c
    | _ => .error "cannot unmarshal into field exchangeSegment"
  else if k = "exchangeSegmentName" then
    match v with
    | .str s => .ok { c with exchangeSegmentName := s }
    | .null => .ok c
    | _ => .error "cannot unmarshal into field exchangeSegmentName"
  else if k = "exchangeSuffix" then
    match v with
    | .str s => .ok { c with exchangeSuffix := s }
    | .null => .ok c
    | _ => .error "cannot unmarshal into field exchangeSuffix"
  else if k = "figi" then
    match v with
    | .str s => .ok { c with figi := s }
    | .null => .ok c
    | _ => .error "cannot unmarshal into field figi"
  else if k = "iexId" then
    match v with
    | .str s => .ok { c with iexId := s }
    | .null => .ok c
    | _ => .error "cannot unmarshal into field iexId"
  else if k = "isEnabled" then
    match v with
    | .bool b => .ok { c with isEnabled := b }
    | .null => .ok c
    | _ => .error "cannot unmarshal into field isEnabled"
  else if k = "lei" then
    match v with
    | .str s => .ok { c with lei := s }
    | .null => .ok c
    | _ => .error "cannot unmarshal into field lei"
  else if k = "name" then
    match v with
    | .str s => .ok { c with name := s }
    | .null => .ok c
    | _ => .error "cannot unmarshal into field name"
  else if k = "region" then
    match v with
    | .str s => .ok { c with region := s }
    | .null => .ok c
    | _ => .error "cannot unmarshal into field region"
  else if k = "symbol" then
    match v with
    | .str s => .ok { c with symbol := s }
    | .null => .ok c
    | _ => .error "cannot unmarshal into field symbol"
  else if k = "type" then
    match v with
    | .str s => .ok { c with type := s }
    | .null => .ok c
    | _ => .error "cannot unmarshal into field type"
  else .ok c

/-- Modelled from the spec: Go `json.Unmarshal` of one JSON value into a
`Company` struct — object entries are applied in order onto the zero
value (a later duplicate key wins), `null` decodes to the zero value, any
other shape is a type error. -/
def decodeCompany (j : Json) : Except String Company :=
  match j with
  | .obj kvs => kvs.foldlM (fun c kv => setCompanyField c kv.1 kv.2) defaultCompany
  | .null => .ok defaultCompany
  | _ => .error "cannot unmarshal into Company"

/-- Element-wise decoding of a JSON array body into companies, failing on
the first element that does not decode. -/
def decodeCompanyList : List Json → Except String (List Company)
  | [] => .ok []
  | j :: js =>
    match decodeCompany j with
    | .error e => .error e
    | .ok c =>
      match decodeCompanyList js with
      | .error e => .error e
      | .ok cs => .ok (c :: cs)

/-- Modelled from the spec: Go `json.Unmarshal` of a JSON value into
`[]Company` — an array decodes element-wise, `null` decodes to the nil
slice, anything else is a type error. -/
def decodeCompanies (j : Json) : Except String (List Company) :=
  match j with
  | .arr xs => decodeCompanyList xs
  | .null => .ok []
  | _ => .error "cannot unmarshal into company list"

/-- Modelled from the spec: Go `json.Marshal` of a `Company` — an object
with the struct-tag keys in field order. -/
def encodeCompany (c : Company) : Json :=
  .obj [("cik", .str c.cik), ("currency", .str c.currency),
    ("date", .str c.date), ("exchange", .str c.exchange),
    ("exchangeName", .str c.exchangeName),
    ("exchangeSegment", .str c.exchangeSegment),
    ("exchangeSegmentName", .str c.exchangeSegmentName),
    ("exchangeSuffix", .str c.exchangeSuffix), ("figi", .str c.figi),
    ("iexId", .str c.iexId), ("isEnabled", .bool c.isEnabled),
    ("lei", .str c.lei), ("name", .str c.name), ("region", .str c.region),
    ("symbol", .str c.symbol), ("type", .str c.type)]

/-- Modelled from the spec: Go `json.Marshal` of a `[]Company` — a JSON
array of the encoded elements. -/
def encodeCompanies (cs : List Company) : Json :=
  .arr (cs.map encodeCompany)

/-- Result of the company listing: the Go `([]Company, error)` pair
collapsed into an `Except`, plus the trace of outbound calls. -/
structure CompaniesResult where
  companies : Except String (List Company)
  calls : List NetCall
  deriving Repr

/-- `GetPublicCompaniesWithHeaders` from core.go: fail fast when the
`token` query parameter is empty or absent, otherwise issue one GET to the
symbols endpoint with the encoded query, then decode the body as a JSON
array of `Company`; a decode failure reports the raw body. -/
def GetPublicCompaniesWithHeaders (env : Env)
    (queryParameters headers : List (String × String)) : CompaniesResult :=
  if lookupParam queryParameters "token" = "" then
    ⟨.error tokenErrMsg, []⟩
  else
    let url := iexSymbolsURL ++ "?" ++ env.encodeQuery queryParameters
    match env.httpGet url headers with
    | .error e => ⟨.error e, [.httpGet url]⟩
    | .ok body =>
      match env.parseJson body with
      | .error _ => ⟨.error ("error unmarshaling JSON: " ++ body), [.httpGet url]⟩
      | .ok j =>
        match decodeCompanies j with
        | .error _ => ⟨.error ("error unmarshaling JSON: " ++ body), [.httpGet url]⟩
        | .ok cs => ⟨.ok cs, [.httpGet url]⟩

/-- `GetPublicCompanies` from core.go: the no-argument wrapper, delegating
with empty query parameters and headers. -/
def GetPublicCompanies (env : Env) : CompaniesResult :=
  GetPublicCompaniesWithHeaders env [] []

/-! ### Filer resolver -/

/-- The company lookup URL from core.go, with the symbol substituted for
the format verb. -/
def secCompanyURL (symbol : String) : String :=
  "https://www.sec.gov/cgi-bin/browse-edgar?action=getcompany&CIK=" ++ symbol ++
  "&start=0&count=1&output=atom"

/-- `GetFilerWithHeaders` from core.go: fetch and decode the filer feed
(transport and charset-aware XML decode are the `fetchFeed` oracle), then
validate — an empty CIK or an empty conformed name is a distinct error —
and assemble the `Filer` from the caller symbol and decoded fields. -/
def GetFilerWithHeaders (env : Env) (symbol : String)
    (headers : List (String × String)) : Except String Filer :=
  match env.fetchFeed (secCompanyURL symbol) headers with
  | .error e => .error e
  | .ok feed =>
    if feed.info.cik = "" then .error "no cik found in response data"
    else if feed.info.name = "" then .error "no name found in response data"
    else .ok ⟨feed.info.cik, symbol, feed.info.sic, feed.info.sicDesc, feed.info.name⟩

/-- `GetFiler` from core.go: the wrapper passing no extra headers. -/
def GetFiler (env : Env) (symbol : String) : Except String Filer :=
  GetFilerWithHeaders env symbol []

/-! ### Concrete collaborators used by the closed witnesses -/

/-- A filing dated 2023-03-01. -/
def filingA : SECFiling := ⟨⟨"320193", "10-K", 20230301, "AAPL", []⟩, []⟩

/-- A filing dated 2023-02-01. -/
def filingB : SECFiling := ⟨⟨"320193", "10-K", 20230201, "AAPL", []⟩, []⟩

/-- A filing dated 2023-01-01, of a different form type. -/
def filingC : SECFiling := ⟨⟨"320193", "10-Q", 20230101, "AAPL", []⟩, []⟩

/-- A concrete environment: the top directory of filer 320193 lists three
sub-directories whose index pages build `filingA`, `filingB`, `filingC`;
page `pageD` has no index link; index `idxE` fails to build. -/
def envMain : Env :=
  { getPage := fun u _ =>
      if u = topURL "320193" then .ok "dirpage"
      else if u = "uA" then .ok "pageA"
      else if u = "uB" then .ok "pageB"
      else if u = "uC" then .ok "pageC"
      else if u = "uD" then .ok "pageD"
      else if u = "uE" then .ok "pageE"
      else .error "offline"
    findListURLs := fun p => if p = "dirpage" then ["uA", "uB", "uC"] else []
    findIdxURL := fun p =>
      if p = "pageA" then "idxA"
      else if p = "pageB" then "idxB"
      else if p = "pageC" then "idxC"
      else if p = "pageE" then "idxE"
      else ""
    buildFiling := fun _ i =>
      if i = "idxA" then .ok filingA
      else if i = "idxB" then .ok filingB
      else if i = "idxC" then .ok filingC
      else .error "buildfail"
    httpGet := fun _ _ => .ok "[]"
    encodeQuery := fun _ => ""
    parseJson := fun _ => .ok (.arr [])
    fetchFeed := fun _ _ => .error "offline" }

/-- `envMain` with the fetch of sub-directory `uB` failing. -/
def envSkip : Env :=
  { envMain with getPage := fun u n =>
      if u = "uB" then .error "down" else envMain.getPage u n }

/-- An environment whose every page fetch fails. -/
def envDown : Env :=
  { envMain with getPage := fun _ _ => .error "connection refused" }

/-- `envMain` with a top-level directory page that yields no matches. -/
def envEmptyDir : Env :=
  { envMain with findListURLs := fun _ => [] }

/-- A decoded filer feed with all fields populated. -/
def feedFull : rssFeed := ⟨⟨"0000320193", "3571", "ELECTRONIC COMPUTERS", "APPLE INC"⟩⟩

/-- A decoded filer feed with empty cik and empty name. -/
def feedEmpty : rssFeed := ⟨⟨"", "", "", ""⟩⟩

/-- A decoded filer feed with a cik but an empty name. -/
def feedNoName : rssFeed := ⟨⟨"0000320193", "", "", ""⟩⟩

/-- An environment whose filer feed decodes with all fields populated. -/
def envFeed : Env :=
  { envMain with fetchFeed := fun _ _ => .ok feedFull }

/-- An environment whose filer feed decodes with empty cik and name. -/
def envFeedEmpty : Env :=
  { envMain with fetchFeed := fun _ _ => .ok feedEmpty }

/-- An environment whose filer feed decodes with a cik but an empty name. -/
def envFeedNoName : Env :=
  { envMain with fetchFeed := fun _ _ => .ok feedNoName }

/-! ### Step lemmas for the traversal loop -/

theorem getFilingsLoop_nil (env : Env) (cik ft : String) (stop : Option Int)
    (acc : List SECFiling) (calls : List NetCall) :
    getFilingsLoop env cik ft stop [] acc calls = ⟨acc, none, calls⟩ := rfl

theorem getFilingsLoop_skip_fetch (env : Env) (cik ft : String) (stop : Option Int)
    (u e : String) (rest : List String) (acc : List SECFiling) (calls : List NetCall)
    (h : env.getPage u 2 = .error e) :
    getFilingsLoop env cik ft stop (u :: rest) acc calls =
      getFilingsLoop env cik ft stop rest acc (calls ++ [.pageGet u 2]) := by
  rw [getFilingsLoop, h]

theorem getFilingsLoop_skip_idx (env : Env) (cik ft : String) (stop : Option Int)
    (u page : String) (rest : List String) (acc : List SECFiling) (calls : List NetCall)
    (h : env.getPage u 2 = .ok page) (hidx : env.findIdxURL page = "") :
    getFilingsLoop env cik ft stop (u :: rest) acc calls =
      getFilingsLoop env cik ft stop rest acc (calls ++ [.pageGet u 2]) := by
  rw [getFilingsLoop, h]
  simp only [hidx, if_true, eq_self_iff_true]

theorem getFilingsLoop_skip_build (env : Env) (cik ft : String) (stop : Option Int)
    (u page e : String) (rest : List String) (acc : List SECFiling) (calls : List NetCall)
    (h : env.getPage u 2 = .ok page) (hidx : env.findIdxURL page ≠ "")
    (hb : env.buildFiling cik (env.findIdxURL page) = .error e) :
    getFilingsLoop env cik ft stop (u :: rest) acc calls =
      getFilingsLoop env cik ft stop rest acc
        (calls ++ [.pageGet u 2, .buildCall cik (env.findIdxURL page)]) := by
  rw [getFilingsLoop, h]
  simp only [if_neg hidx, hb]

theorem getFilingsLoop_skip_form (env : Env) (cik ft : String) (stop : Option Int)
    (u page : String) (fl : SECFiling) (rest : List String) (acc : List SECFiling)
    (calls : List NetCall)
    (h : env.getPage u 2 = .ok page) (hidx : env.findIdxURL page ≠ "")
    (hb : env.buildFiling cik (env.findIdxURL page) = .ok fl)
    (hft : ft ≠ "") (hne : fl.filing.formType ≠ ft) :
    getFilingsLoop env cik ft stop (u :: rest) acc calls =
      getFilingsLoop env cik ft stop rest acc
        (calls ++ [.pageGet u 2, .buildCall cik (env.findIdxURL page)]) := by
  rw [getFilingsLoop, h]
  simp only [if_neg hidx, hb, if_pos (And.intro hft hne)]

theorem getFilingsLoop_cutoff_return (env : Env) (cik ft : String) (st : Int)
    (u page : String) (fl : SECFiling) (rest : List String) (acc : List SECFiling)
    (calls : List NetCall)
    (h : env.getPage u 2 = .ok page) (hidx : env.findIdxURL page ≠ "")
    (hb : env.buildFiling cik (env.findIdxURL page) = .ok fl)
    (hform : ft = "" ∨ fl.filing.formType = ft)
    (hlt : fl.filing.edgarTime < st) :
    getFilingsLoop env cik ft (some st) (u :: rest) acc calls =
      ⟨acc, none, calls ++ [.pageGet u 2, .buildCall cik (env.findIdxURL page)]⟩ := by
  have hform2 : ¬ (ft ≠ "" ∧ fl.filing.formType ≠ ft) := by
    rcases hform with h1 | h1
    · exact fun hc => hc.1 h1
    · exact fun hc => hc.2 h1
  rw [getFilingsLoop, h]
  simp only [if_neg hidx, hb, if_neg hform2, if_pos hlt]

theorem getFilingsLoop_append (env : Env) (cik ft : String) (stop : Option Int)
    (u page : String) (fl : SECFiling) (rest : List String) (acc : List SECFiling)
    (calls : List NetCall)
    (h : env.getPage u 2 = .ok page) (hidx : env.findIdxURL page ≠ "")
    (hb : env.buildFiling cik (env.findIdxURL page) = .ok fl)
    (hform : ft = "" ∨ fl.filing.formType = ft)
    (hstop : ∀ st, stop = some st → ¬ fl.filing.edgarTime < st) :
    getFilingsLoop env cik ft stop (u :: rest) acc calls =
      getFilingsLoop env cik ft stop rest (acc ++ [stampFiling fl])
        (calls ++ [.pageGet u 2, .buildCall cik (env.findIdxURL page)]) := by
  have hform2 : ¬ (ft ≠ "" ∧ fl.filing.formType ≠ ft) := by
    rcases hform with h1 | h1
    · exact fun hc => hc.1 h1
    · exact fun hc => hc.2 h1
  rw [getFilingsLoop, h]
  cases stop with
  | none => simp only [if_neg hidx, hb, if_neg hform2]
  | some st => simp only [if_neg hidx, hb, if_neg hform2, if_neg (hstop st rfl)]

theorem getFilings_parse_error (env : Env) (cik ft stoptime e : String)
    (h : parseStop stoptime = .error e) :
    GetFilings env cik ft stoptime = ⟨[], some e, []⟩ := by
  rw [GetFilings, h]

theorem getFilings_top_error (env : Env) (cik ft stoptime e : String)
    (stop : Option Int) (hstop : parseStop stoptime = .ok stop)
    (h : env.getPage (topURL cik) 2 = .error e) :
    GetFilings env cik ft stoptime = ⟨[], some e, [.pageGet (topURL cik) 2]⟩ := by
  rw [GetFilings, hstop, h]

theorem getFilingsLoop_err_none (env : Env) (cik ft : String) (stop : Option Int) :
    ∀ (urls : List String) (acc : List SECFiling) (calls : List NetCall),
      (getFilingsLoop env cik ft stop urls acc calls).err = none := by
  intro urls
  induction urls with
  | nil => intro acc calls; rfl
  | cons u rest ih =>
    intro acc calls
    cases hp : env.getPage u 2 with
    | error e =>
      rw [getFilingsLoop_skip_fetch env cik ft stop u e rest acc calls hp]
      exact ih _ _
    | ok page =>
      by_cases hidx : env.findIdxURL page = ""
      · rw [getFilingsLoop_skip_idx env cik ft stop u page rest acc calls hp hidx]
        exact ih _ _
      · cases hb : env.buildFiling cik (env.findIdxURL page) with
        | error e =>
          rw [getFilingsLoop_skip_build env cik ft stop u page e rest acc calls hp hidx hb]
          exact ih _ _
        | ok fl =>
          by_cases hform : ft ≠ "" ∧ fl.filing.formType ≠ ft
          · rw [getFilingsLoop_skip_form env cik ft stop u page fl rest acc calls hp hidx hb
              hform.1 hform.2]
            exact ih _ _
          · have hform2 : ft = "" ∨ fl.filing.formType = ft := by
              by_cases hft : ft = ""
              · exact Or.inl hft
              · push_neg at hform
                exact Or.inr (hform hft)
            cases stop with
            | none =>
              rw [getFilingsLoop_append env cik ft none u page fl rest acc calls hp hidx hb
                hform2 (fun st hst => nomatch hst)]
              exact ih _ _
            | some st =>
              by_cases hlt : fl.filing.edgarTime < st
              · rw [getFilingsLoop_cutoff_return env cik ft st u page fl rest acc calls hp
                  hidx hb hform2 hlt]
              · rw [getFilingsLoop_append env cik ft (some st) u page fl rest acc calls hp
                  hidx hb hform2 (fun st2 hst => by injection hst with he; exact he ▸ hlt)]
                exact ih _ _

theorem getFilingsLoop_mem (env : Env) (cik ft : String) (stop : Option Int) :
    ∀ (urls : List String) (acc : List SECFiling) (calls : List NetCall)
      (sf : SECFiling), sf ∈ (getFilingsLoop env cik ft stop urls acc calls).filings →
      sf ∈ acc ∨ ∃ fl, sf = stampFiling fl ∧ (ft = "" ∨ fl.filing.formType = ft) := by
  intro urls
  induction urls with
  | nil => intro acc calls sf h; exact Or.inl h
  | cons u rest ih =>
    intro acc calls sf h
    cases hp : env.getPage u 2 with
    | error e =>
      rw [getFilingsLoop_skip_fetch env cik ft stop u e rest acc calls hp] at h
      exact ih _ _ _ h
    | ok page =>
      by_cases hidx : env.findIdxURL page = ""
      · rw [getFilingsLoop_skip_idx env cik ft stop u page rest acc calls hp hidx] at h
        exact ih _ _ _ h
      · cases hb : env.buildFiling cik (env.findIdxURL page) with
        | error e =>
          rw [getFilingsLoop_skip_build env cik ft stop u page e rest acc calls hp hidx hb] at h
          exact ih _ _ _ h
        | ok fl =>
          by_cases hform : ft ≠ "" ∧ fl.filing.formType ≠ ft
          · rw [getFilingsLoop_skip_form env cik ft stop u page fl rest acc calls hp hidx hb
              hform.1 hform.2] at h
            exact ih _ _ _ h
          · have hform2 : ft = "" ∨ fl.filing.formType = ft := by
              by_cases hft : ft = ""
              · exact Or.inl hft
              · push_neg at hform
                exact Or.inr (hform hft)
            have happ : ∀ hstop : (∀ st, stop = some st → ¬ fl.filing.edgarTime < st),
                sf ∈ acc ∨ ∃ fl2, sf = stampFiling fl2 ∧
                  (ft = "" ∨ fl2.filing.formType = ft) := by
              intro hstop
              rw [getFilingsLoop_append env cik ft stop u page fl rest acc calls hp hidx hb
                hform2 hstop] at h
              rcases ih _ _ _ h with hin | hex
              · rcases List.mem_append.mp hin with h1 | h2
                · exact Or.inl h1
                · have h3 : sf = stampFiling fl := by simpa using h2
                  exact Or.inr ⟨fl, h3, hform2⟩
              · exact Or.inr hex
            cases stop with
            | none => exact happ (fun st hst => nomatch hst)
            | some st =>
              by_cases hlt : fl.filing.edgarTime < st
              · rw [getFilingsLoop_cutoff_return env cik ft st u page fl rest acc calls hp
                  hidx hb hform2 hlt] at h
                exact Or.inl h
              · exact happ (fun st2 hst => by injection hst with he; exact he ▸ hlt)

theorem getFilings_unfold_ok (env : Env) (cik ft stoptime : String)
    (stop : Option Int) (dirPage : String)
    (hstop : parseStop stoptime = .ok stop)
    (htop : env.getPage (topURL cik) 2 = .ok dirPage) :
    GetFilings env cik ft stoptime =
      getFilingsLoop env cik ft stop (env.findListURLs dirPage) []
        [.pageGet (topURL cik) 2] := by
  rw [GetFilings, hstop, htop]

theorem getFilings_mem (env : Env) (cik ft stoptime : String) (sf : SECFiling)
    (h : sf ∈ (GetFilings env cik ft stoptime).filings) :
    ∃ fl, sf = stampFiling fl ∧ (ft = "" ∨ fl.filing.formType = ft) := by
  cases hp : parseStop stoptime with
  | error e =>
    rw [getFilings_parse_error env cik ft stoptime e hp] at h
    exact absurd h (List.not_mem_nil sf)
  | ok stop =>
    cases hg : env.getPage (topURL cik) 2 with
    | error e =>
      rw [getFilings_top_error env cik ft stoptime e stop hp hg] at h
      exact absurd h (List.not_mem_nil sf)
    | ok dirPage =>
      rw [getFilings_unfold_ok env cik ft stoptime stop dirPage hp hg] at h
      rcases getFilingsLoop_mem env cik ft stop _ _ _ sf h with h1 | h2
      · exact absurd h1 (List.not_mem_nil sf)
      · exact h2

/-! ### Claim theorems -/

/-- C7: when extraction of sub-directory URLs from the top-level directory
page yields no matches, `GetFilings` returns an empty sequence and no
error — absence of matches is not a failure. -/
theorem getFilings_no_matches_empty (env : Env) (cik ft stoptime dirPage : String)
    (stop : Option Int) (hparse : parseStop stoptime = .ok stop)
    (htop : env.getPage (topURL cik) 2 = .ok dirPage)
    (hurls : env.findListURLs dirPage = []) :
    (GetFilings env cik ft stoptime).filings = [] ∧
    (GetFilings env cik ft stoptime).err = none := by
  rw [getFilings_unfold_ok env cik ft stoptime stop dirPage hparse htop, hurls,
    getFilingsLoop_nil]
  exact ⟨rfl, rfl⟩

theorem getFilings_no_matches_empty_witness :
    (GetFilings envEmptyDir "320193" "" "").filings = [] ∧
    (GetFilings envEmptyDir "320193" "" "").err = none :=
  getFilings_no_matches_empty envEmptyDir "320193" "" "" "dirpage" none rfl rfl rfl

/-- C8: every filing in the result of `GetFilings` has its
associated-symbols list set, by the stamp applied just before appending, to
the one-element list holding exactly the symbol under query — the `Symbol`
field of the built filing. -/
theorem getFilings_symbols_stamped (env : Env) (cik ft stoptime : String)
    (sf : SECFiling) (h : sf ∈ (GetFilings env cik ft stoptime).filings) :
    sf.filing.allSymbols = [sf.filing.symbol] := by
  rcases getFilings_mem env cik ft stoptime sf h with ⟨fl, rfl, _⟩
  rfl

theorem getFilings_symbols_stamped_witness :
    stampFiling filingB ∈ (GetFilings envMain "320193" "" "").filings ∧
    (stampFiling filingB).filing.allSymbols = [(stampFiling filingB).filing.symbol] :=
  ⟨by decide, getFilings_symbols_stamped envMain "320193" "" "" (stampFiling filingB)
    (by decide)⟩

/-- C6: with a non-empty form-type filter, every filing returned by
`GetFilings` has exactly the filtered form type; a built filing whose form
type differs is skipped, leaving the accumulated filings and the traversal
of the remaining entries unchanged. -/
theorem getFilings_form_filter (env : Env) (cik ft stoptime : String) (hft : ft ≠ "") :
    (∀ sf ∈ (GetFilings env cik ft stoptime).filings, sf.filing.formType = ft) ∧
    (∀ (stop : Option Int) (u page : String) (fl : SECFiling) (rest : List String)
      (acc : List SECFiling) (calls : List NetCall),
      env.getPage u 2 = .ok page → env.findIdxURL page ≠ "" →
      env.buildFiling cik (env.findIdxURL page) = .ok fl →
      fl.filing.formType ≠ ft →
      getFilingsLoop env cik ft stop (u :: rest) acc calls =
        getFilingsLoop env cik ft stop rest acc
          (calls ++ [.pageGet u 2, .buildCall cik (env.findIdxURL page)])) := by
  constructor
  · intro sf hmem
    rcases getFilings_mem env cik ft stoptime sf hmem with ⟨fl, rfl, hca⟩
    rcases hca with h1 | h1
    · exact absurd h1 hft
    · exact h1
  · intro stop u page fl rest acc calls h hidx hb hne
    exact getFilingsLoop_skip_form env cik ft stop u page fl rest acc calls h hidx hb hft hne

theorem getFilings_form_filter_witness :
    stampFiling filingA ∈ (GetFilings envMain "320193" "10-K" "").filings ∧
    (stampFiling filingA).filing.formType = "10-K" :=
  ⟨by decide, (getFilings_form_filter envMain "320193" "10-K" "" (by decide)).1
    (stampFiling filingA) (by decide)⟩

/-- C4: when the query parameters hold no non-empty token entry,
`GetPublicCompaniesWithHeaders` returns the descriptive configuration error
and performs no outbound call. -/
theorem getPublicCompanies_token_required (env : Env)
    (qp hs : List (String × String)) (h : lookupParam qp "token" = "") :
    GetPublicCompaniesWithHeaders env qp hs = ⟨.error tokenErrMsg, []⟩ := by
  rw [GetPublicCompaniesWithHeaders, if_pos h]

theorem getPublicCompanies_token_required_witness :
    GetPublicCompaniesWithHeaders envMain [("symbol", "AAPL"), ("token", "")] [] =
      ⟨.error tokenErrMsg, []⟩ :=
  getPublicCompanies_token_required envMain [("symbol", "AAPL"), ("token", "")] [] rfl

/-- C10: the no-argument wrapper `GetPublicCompanies` delegates with empty
query parameters, so for every environment it returns the missing-token
configuration error and performs no outbound call. -/
theorem getPublicCompanies_wrapper_always_errors (env : Env) :
    GetPublicCompanies env = ⟨.error tokenErrMsg, []⟩ := rfl

/-- C5 (amended): for a successfully decoded filer feed, an empty cik
yields the cik-specific error; an empty conformed name with a non-empty
cik yields the name-specific error; with both non-empty the returned Filer
maps the decoded fields 1:1 and carries the caller symbol. -/
theorem getFiler_validation (env : Env) (symbol : String)
    (hs : List (String × String)) (feed : rssFeed)
    (hfeed : env.fetchFeed (secCompanyURL symbol) hs = .ok feed) :
    (feed.info.cik = "" →
      GetFilerWithHeaders env symbol hs = .error "no cik found in response data") ∧
    (feed.info.cik ≠ "" → feed.info.name = "" →
      GetFilerWithHeaders env symbol hs = .error "no name found in response data") ∧
    (feed.info.cik ≠ "" → feed.info.name ≠ "" →
      GetFilerWithHeaders env symbol hs =
        .ok ⟨feed.info.cik, symbol, feed.info.sic, feed.info.sicDesc, feed.info.name⟩) := by
  refine ⟨fun hc => ?_, fun hc hn => ?_, fun hc hn => ?_⟩
  · rw [GetFilerWithHeaders, hfeed]
    dsimp only
    rw [if_pos hc]
  · rw [GetFilerWithHeaders, hfeed]
    dsimp only
    rw [if_neg hc, if_pos hn]
  · rw [GetFilerWithHeaders, hfeed]
    dsimp only
    rw [if_neg hc, if_neg hn]

theorem getFiler_validation_witness :
    GetFilerWithHeaders envFeed "AAPL" [] =
      .ok ⟨"0000320193", "AAPL", "3571", "ELECTRONIC COMPUTERS", "APPLE INC"⟩ ∧
    GetFilerWithHeaders envFeedNoName "MSFT" [] =
      .error "no name found in response data" := by
  constructor
  · exact (getFiler_validation envFeed "AAPL" [] feedFull rfl).2.2 (by decide) (by decide)
  · exact (getFiler_validation envFeedNoName "MSFT" [] feedNoName rfl).2.1 (by decide) rfl

/-- C5 counterexample to the claim as stated: with both decoded fields
empty the conformed name is empty, yet the resolver fails with the
cik-specific error, not the name-specific one. -/
theorem getFiler_both_empty_counterexample :
    envFeedEmpty.fetchFeed (secCompanyURL "AAPL") [] = .ok feedEmpty ∧
    feedEmpty.info.name = "" ∧
    GetFilerWithHeaders envFeedEmpty "AAPL" [] = .error "no cik found in response data" ∧
    GetFilerWithHeaders envFeedEmpty "AAPL" [] ≠ .error "no name found in response data" := by
  refine ⟨rfl, rfl, rfl, ?_⟩
  intro h
  have h2 : Except.error (α := Filer) "no cik found in response data" =
      Except.error "no name found in response data" := h
  exact absurd (Except.error.inj h2) (by decide)

/-- C1: when a cutoff was established from a non-empty stop date, a built
filing that passed the form-type filter and whose timestamp is strictly
before the cutoff stops the traversal: the filings accumulated so far are
returned with no error and the triggering filing is excluded; a filing
whose timestamp equals the cutoff is appended and traversal continues. -/
theorem getFilings_cutoff_stop (env : Env) (cik ft stoptime : String)
    (d : Nat × Nat × Nat) (u : String) (rest : List String)
    (acc : List SECFiling) (calls : List NetCall) (page : String) (fl : SECFiling)
    (hne : stoptime ≠ "") (hd : parseGoDate stoptime = some d)
    (hpage : env.getPage u 2 = .ok page)
    (hidx : env.findIdxURL page ≠ "")
    (hbuild : env.buildFiling cik (env.findIdxURL page) = .ok fl)
    (hform : ft = "" ∨ fl.filing.formType = ft) :
    (∀ dirPage, env.getPage (topURL cik) 2 = .ok dirPage →
      GetFilings env cik ft stoptime =
        getFilingsLoop env cik ft (some (dateInstant d)) (env.findListURLs dirPage) []
          [.pageGet (topURL cik) 2]) ∧
    (fl.filing.edgarTime < dateInstant d →
      getFilingsLoop env cik ft (some (dateInstant d)) (u :: rest) acc calls =
        ⟨acc, none, calls ++ [.pageGet u 2, .buildCall cik (env.findIdxURL page)]⟩) ∧
    (fl.filing.edgarTime = dateInstant d →
      getFilingsLoop env cik ft (some (dateInstant d)) (u :: rest) acc calls =
        getFilingsLoop env cik ft (some (dateInstant d)) rest (acc ++ [stampFiling fl])
          (calls ++ [.pageGet u 2, .buildCall cik (env.findIdxURL page)])) := by
  have hstop : parseStop stoptime = .ok (some (dateInstant d)) := by
    rw [parseStop, if_neg hne, hd]
  refine ⟨fun dirPage htop => ?_, fun hlt => ?_, fun heq => ?_⟩
  · exact getFilings_unfold_ok env cik ft stoptime (some (dateInstant d)) dirPage hstop htop
  · exact getFilingsLoop_cutoff_return env cik ft (dateInstant d) u page fl rest acc calls
      hpage hidx hbuild hform hlt
  · refine getFilingsLoop_append env cik ft (some (dateInstant d)) u page fl rest acc calls
      hpage hidx hbuild hform ?_
    intro st hst
    injection hst with he
    subst he
    rw [heq]
    exact lt_irrefl _

theorem getFilings_cutoff_stop_witness :
    (getFilingsLoop envMain "320193" "" (some (dateInstant (2023, 2, 1))) ["uC"]
        [stampFiling filingA, stampFiling filingB] [] =
      ⟨[stampFiling filingA, stampFiling filingB], none,
        [.pageGet "uC" 2, .buildCall "320193" "idxC"]⟩) ∧
    (getFilingsLoop envMain "320193" "" (some (dateInstant (2023, 2, 1))) ["uB", "uC"]
        [stampFiling filingA] [] =
      getFilingsLoop envMain "320193" "" (some (dateInstant (2023, 2, 1))) ["uC"]
        [stampFiling filingA, stampFiling filingB]
        [.pageGet "uB" 2, .buildCall "320193" "idxB"]) := by
  constructor
  · exact (getFilings_cutoff_stop envMain "320193" "" "2023-02-01" (2023, 2, 1) "uC" []
      [stampFiling filingA, stampFiling filingB] [] "pageC" filingC (by decide) rfl rfl
      (by decide) rfl (Or.inl rfl)).2.1 (by decide)
  · exact (getFilings_cutoff_stop envMain "320193" "" "2023-02-01" (2023, 2, 1) "uB" ["uC"]
      [stampFiling filingA] [] "pageB" filingB (by decide) rfl rfl
      (by decide) rfl (Or.inl rfl)).2.2 (by decide)

/-- C2: a per-item failure — a sub-directory fetch error, a missing index
link, or a filing-build error — is skipped without aborting the traversal
or producing an error; with the middle fetch of three entries failing, the
filings of the other two come back in their relative order with no error. -/
theorem getFilings_item_failures_skipped (env : Env) (cik ft : String)
    (stop : Option Int) (ua ub uc ea pageb pagec eb : String)
    (rest : List String) (acc : List SECFiling) (calls : List NetCall)
    (dirPage u1 u3 page1 page3 : String) (f1 f3 : SECFiling)
    (ha : env.getPage ua 2 = .error ea)
    (hb : env.getPage ub 2 = .ok pageb) (hbidx : env.findIdxURL pageb = "")
    (hc : env.getPage uc 2 = .ok pagec) (hcidx : env.findIdxURL pagec ≠ "")
    (hcbuild : env.buildFiling cik (env.findIdxURL pagec) = .error eb)
    (htop : env.getPage (topURL cik) 2 = .ok dirPage)
    (hurls : env.findListURLs dirPage = [u1, ua, u3])
    (h1 : env.getPage u1 2 = .ok page1) (h1idx : env.findIdxURL page1 ≠ "")
    (h1build : env.buildFiling cik (env.findIdxURL page1) = .ok f1)
    (h3 : env.getPage u3 2 = .ok page3) (h3idx : env.findIdxURL page3 ≠ "")
    (h3build : env.buildFiling cik (env.findIdxURL page3) = .ok f3) :
    (getFilingsLoop env cik ft stop (ua :: rest) acc calls =
      getFilingsLoop env cik ft stop rest acc (calls ++ [.pageGet ua 2])) ∧
    (getFilingsLoop env cik ft stop (ub :: rest) acc calls =
      getFilingsLoop env cik ft stop rest acc (calls ++ [.pageGet ub 2])) ∧
    (getFilingsLoop env cik ft stop (uc :: rest) acc calls =
      getFilingsLoop env cik ft stop rest acc
        (calls ++ [.pageGet uc 2, .buildCall cik (env.findIdxURL pagec)])) ∧
    ((GetFilings env cik "" "").filings = [stampFiling f1, stampFiling f3] ∧
      (GetFilings env cik "" "").err = none) := by
  refine ⟨?_, ?_, ?_, ?_⟩
  · exact getFilingsLoop_skip_fetch env cik ft stop ua ea rest acc calls ha
  · exact getFilingsLoop_skip_idx env cik ft stop ub pageb rest acc calls hb hbidx
  · exact getFilingsLoop_skip_build env cik ft stop uc pagec eb rest acc calls hc hcidx hcbuild
  · have hp : parseStop "" = .ok none := rfl
    rw [getFilings_unfold_ok env cik "" "" none dirPage hp htop, hurls]
    rw [getFilingsLoop_append env cik "" none u1 page1 f1 [ua, u3] [] _ h1 h1idx h1build
      (Or.inl rfl) (fun st hst => nomatch hst)]
    rw [getFilingsLoop_skip_fetch env cik "" none ua ea [u3] _ _ ha]
    rw [getFilingsLoop_append env cik "" none u3 page3 f3 [] _ _ h3 h3idx h3build
      (Or.inl rfl) (fun st hst => nomatch hst)]
    rw [getFilingsLoop_nil]
    exact ⟨rfl, rfl⟩

theorem getFilings_item_failures_skipped_witness :
    (GetFilings envSkip "320193" "" "").filings =
      [stampFiling filingA, stampFiling filingC] ∧
    (GetFilings envSkip "320193" "" "").err = none :=
  (getFilings_item_failures_skipped envSkip "320193" "" none "uB" "uD" "uE" "down"
    "pageD" "pageE" "buildfail" [] [] [] "dirpage" "uA" "uC" "pageA" "pageC"
    filingA filingC rfl rfl rfl rfl (by decide) rfl rfl rfl rfl (by decide) rfl
    rfl (by decide) rfl).2.2.2

/-- C3: `GetFilings` returns an error exactly when the non-empty stop date
fails to parse or the top-level directory fetch fails; a stop-date parse
failure aborts with the parse error before any fetch, with no filings and
an empty call trace. -/
theorem getFilings_err_characterisation (env : Env) (cik ft stoptime : String) :
    ((GetFilings env cik ft stoptime).err ≠ none ↔
      (stoptime ≠ "" ∧ parseGoDate stoptime = none) ∨
      ((stoptime = "" ∨ parseGoDate stoptime ≠ none) ∧
        ∃ e, env.getPage (topURL cik) 2 = .error e)) ∧
    (stoptime ≠ "" → parseGoDate stoptime = none →
      GetFilings env cik ft stoptime =
        ⟨[], some ("cannot parse " ++ stoptime ++ " as 2006-01-02"), []⟩) := by
  constructor
  · by_cases hso : stoptime = ""
    · have hp : parseStop stoptime = .ok none := by rw [parseStop, if_pos hso]
      cases hg : env.getPage (topURL cik) 2 with
      | error e =>
        rw [getFilings_top_error env cik ft stoptime e none hp hg]
        simp [hso]
      | ok dirPage =>
        rw [getFilings_unfold_ok env cik ft stoptime none dirPage hp hg]
        rw [getFilingsLoop_err_none env cik ft none (env.findListURLs dirPage) []
          [.pageGet (topURL cik) 2]]
        simp [hso, hg]
    · cases hpd : parseGoDate stoptime with
      | none =>
        have hp : parseStop stoptime =
            .error ("cannot parse " ++ stoptime ++ " as 2006-01-02") := by
          rw [parseStop, if_neg hso, hpd]
        rw [getFilings_parse_error env cik ft stoptime _ hp]
        simp [hso, hpd]
      | some d =>
        have hp : parseStop stoptime = .ok (some (dateInstant d)) := by
          rw [parseStop, if_neg hso, hpd]
        cases hg : env.getPage (topURL cik) 2 with
        | error e =>
          rw [getFilings_top_error env cik ft stoptime e (some (dateInstant d)) hp hg]
          simp [hso, hpd]
        | ok dirPage =>
          rw [getFilings_unfold_ok env cik ft stoptime (some (dateInstant d)) dirPage hp hg]
          rw [getFilingsLoop_err_none env cik ft (some (dateInstant d))
            (env.findListURLs dirPage) [] [.pageGet (topURL cik) 2]]
          simp [hso, hpd, hg]
  · intro h1 h2
    have hp : parseStop stoptime =
        .error ("cannot parse " ++ stoptime ++ " as 2006-01-02") := by
      rw [parseStop, if_neg h1, h2]
    exact getFilings_parse_error env cik ft stoptime _ hp

theorem getFilings_err_characterisation_witness :
    GetFilings envMain "320193" "" "2023-13-01" =
      ⟨[], some ("cannot parse " ++ "2023-13-01" ++ " as 2006-01-02"), []⟩ ∧
    (GetFilings envDown "320193" "" "2023-02-01").err ≠ none ∧
    (GetFilings envMain "320193" "" "2023-02-01").err = none := by
  refine ⟨?_, ?_, ?_⟩
  · exact (getFilings_err_characterisation envMain "320193" "" "2023-13-01").2
      (by decide) (by decide)
  · exact (getFilings_err_characterisation envDown "320193" "" "2023-02-01").1.mpr
      (Or.inr ⟨Or.inr (by decide), ⟨"connection refused", rfl⟩⟩)
  · by_contra hcon
    rcases (getFilings_err_characterisation envMain "320193" "" "2023-02-01").1.mp hcon with
      ⟨_, h2⟩ | ⟨_, e, h2⟩
    · exact absurd h2 (by decide)
    · exact Except.noConfusion
        ((rfl : envMain.getPage (topURL "320193") 2 = Except.ok "dirpage").symm.trans h2)

/-- C9: decoding round-trips encoding — a sequence of Company values,
encoded as a JSON array and decoded back, yields an equal sequence. -/
theorem decode_encode_companies (cs : List Company) :
    decodeCompanies (encodeCompanies cs) = .ok cs := by
  show decodeCompanyList (cs.map encodeCompany) = .ok cs
  induction cs with
  | nil => rfl
  | cons c rest ih =>
    have h1 : decodeCompany (encodeCompany c) = .ok c := rfl
    simp only [List.map_cons, decodeCompanyList, h1, ih]

end Edgr
